import Mathlib

/-!
# Verification of the ProDy `Ensemble` class (prody/ensemble/ensemble.py)

A shallow embedding, over exact rational arithmetic, of the conformational
ensemble data structure and its superposition/statistics engine, together
with proofs and refutations of the specified properties.

Conventions:
* numpy float arrays are modelled with `ℚ`; an `(N, 3)` coordinate array is a
  `List V3` with `V3 := Fin 3 → ℚ`; an `(M, N, 3)` conformation stack is a
  `List (List V3)`.
* Python exceptions are modelled by the `PyErr` type; a method that can raise
  returns `Except PyErr _`.  In this functional model a call that returns
  `.error _` leaves the caller's state untouched (matching the source wherever
  the `raise` precedes every assignment; deviations are noted locally).
* The singular value decomposition is an external library call
  (`numpy.linalg`/`scipy.linalg`); it is modelled as an oracle producing the
  three factors, and theorems that need its guarantees assume `IsSVDOf`.
-/

/-- Python exception classes that the modelled code can raise. -/
inductive PyErr where
  | valueError
  | typeError
  | attributeError
  | indexError
  | nameError        -- NameError / UnboundLocalError (unbound local variable)
  | runtimeError
  deriving DecidableEq, Repr

/-- A single atom position: one row of an `(N, 3)` numpy array. -/
abbrev V3 := Fin 3 → ℚ

/-- An `(N, 3)` coordinate array: one position per atom. -/
abbrev Coords := List V3

/-- An `(M, N, 3)` conformation stack. -/
abbrev Confs := List Coords

/-- A 3×3 matrix, as produced by the cross-covariance computation. -/
abbrev Mat3 := Matrix (Fin 3) (Fin 3) ℚ

/-- Pointwise subtraction of two rows. -/
def vsub (a b : V3) : V3 := fun i => a i - b i

/-- Pointwise addition of two rows. -/
def vadd (a b : V3) : V3 := fun i => a i + b i

/-- The all-zero row. -/
def vzero : V3 := fun _ => 0

/-- Column-wise sum of an `(N, 3)` array (`numpy .sum(axis=0)`). -/
def vsum (l : Coords) : V3 := l.foldr vadd vzero

/-- Column-wise mean of an `(N, 3)` array (`numpy .mean(0)`). -/
def vmean (l : Coords) : V3 := fun i => vsum l i / l.length

/-- `(c - com)`: subtract a centroid row from every row. -/
def centerRows (c : Coords) (com : V3) : Coords := c.map (fun r => vsub r com)

/-- `(c * w)` for an `(N,1)` weight column broadcast over an `(N,3)` array:
scales row `i` by `w_i`. -/
def scaleRows (w : List ℚ) (c : Coords) : Coords :=
  (c.zip w).map (fun p => fun i => p.1 i * p.2)

/-- Weighted centroid `(c * w).sum(axis=0) / w.sum()` (ensemble.py:537/549). -/
def wcom (w : List ℚ) (c : Coords) : V3 :=
  fun i => vsum (scaleRows w c) i / w.sum

/-- `numpy.dot(t.T, m)` for two `(N, 3)` arrays: the 3×3 cross matrix with
entry `(a, b) = Σ_i t[i, a] * m[i, b]`.  In the unweighted branch of
`Ensemble._superpose` the source stores `tar_org` pre-transposed
(ensemble.py:533) and computes `dot(tar_org, mob - mob_com)` (ensemble.py:547);
the weighted branch computes `dot((tar_org*w).T, (mob_org*w))`
(ensemble.py:551-552).  Both are instances of this function. -/
def covAB (t m : Coords) : Mat3 :=
  Matrix.of fun a b => ((t.zip m).map (fun p => p.1 a * p.2 b)).sum

/-- The cross-covariance matrix `matrix` built by `Ensemble._superpose`
(ensemble.py:547 unweighted, ensemble.py:551-552 weighted) from a target and a
mobile coordinate set, with optional `(N,1)` per-atom weights.  The weighted
form divides elementwise by `weights_dot = dot(weights.T, weights) = Σ w_i²`
(ensemble.py:536). -/
def covMatrix (w : Option (List ℚ)) (tar mob : Coords) : Mat3 :=
  match w with
  | none =>
      covAB (centerRows tar (vmean tar)) (centerRows mob (vmean mob))
  | some w =>
      let tar_org := centerRows tar (wcom w tar)
      let mob_org := centerRows mob (wcom w mob)
      let wdot := (w.map (fun x => x * x)).sum
      Matrix.of fun a b => covAB (scaleRows w tar_org) (scaleRows w mob_org) a b / wdot

/-- `numpy.sign` on a rational. -/
def qSign (x : ℚ) : ℚ := if 0 < x then 1 else if x < 0 then -1 else 0

/-- The reflection-correction matrix
`Id = array([[1, 0, 0], [0, 1, 0], [0, 0, sign(det(matrix))]])`
(ensemble.py:555). -/
def corrMat (matrix : Mat3) : Mat3 :=
  !![1, 0, 0; 0, 1, 0; 0, 0, qSign matrix.det]

/-- `rotation = dot(Vh.T, dot(Id, U.T))` (ensemble.py:556). -/
def rotationM (matrix U Vh : Mat3) : Mat3 :=
  Matrix.transpose Vh * (corrMat matrix * Matrix.transpose U)

/-- A matrix with orthonormal rows/columns, as returned by the SVD. -/
abbrev IsOrtho (A : Mat3) : Prop := A * Matrix.transpose A = 1

/-- `U, s, Vh = svd(matrix)` (ensemble.py:554): a valid singular value
decomposition — `U` and `Vh` orthogonal, `matrix = U·diag(s)·Vh`, and the
singular values nonnegative. -/
def IsSVDOf (matrix U : Mat3) (s : Fin 3 → ℚ) (Vh : Mat3) : Prop :=
  IsOrtho U ∧ IsOrtho Vh ∧ matrix = U * Matrix.diagonal s * Vh ∧ ∀ i, 0 ≤ s i

lemma IsOrtho.det_sq {A : Mat3} (h : IsOrtho A) : A.det * A.det = 1 := by
  have := congrArg Matrix.det h
  rwa [Matrix.det_mul, Matrix.det_transpose, Matrix.det_one] at this

lemma IsOrtho.det_eq_one_or_neg_one {A : Mat3} (h : IsOrtho A) :
    A.det = 1 ∨ A.det = -1 :=
  mul_self_eq_one_iff.mp h.det_sq

lemma corrMat_det (matrix : Mat3) : (corrMat matrix).det = qSign matrix.det := by
  simp [corrMat, Matrix.det_fin_three]

lemma qSign_pos {x : ℚ} (h : 0 < x) : qSign x = 1 := by simp [qSign, h]

lemma qSign_mul_unit {u p : ℚ} (hu : u = 1 ∨ u = -1) (hp : 0 < p) :
    qSign (u * p) = u := by
  rcases hu with h | h <;> subst h
  · simp [qSign_pos hp]
  · simp only [qSign, neg_one_mul]
    have h1 : ¬(0 < -p) := by linarith
    have h2 : -p < 0 := by linarith
    simp [h1, h2]

/-- Core determinant computation: for any valid SVD `matrix = U·diag(s)·Vh`
with `det matrix ≠ 0`, the corrected rotation built by `_superpose` has
determinant exactly `+1`. -/
lemma rotation_det_eq_one {matrix U Vh : Mat3} {s : Fin 3 → ℚ}
    (hsvd : IsSVDOf matrix U s Vh) (hdet : matrix.det ≠ 0) :
    (rotationM matrix U Vh).det = 1 := by
  obtain ⟨hU, hV, hfac, hnn⟩ := hsvd
  have hdU := hU.det_eq_one_or_neg_one
  have hdV := hV.det_eq_one_or_neg_one
  have hfacd : matrix.det = U.det * (∏ i, s i) * Vh.det := by
    rw [hfac, Matrix.det_mul, Matrix.det_mul, Matrix.det_diagonal]
  have hprod_nn : 0 ≤ ∏ i, s i := Finset.prod_nonneg fun i _ => hnn i
  have hprod_ne : (∏ i, s i) ≠ 0 := by
    intro h0
    exact hdet (by rw [hfacd, h0, mul_zero, zero_mul])
  have hprod_pos : 0 < ∏ i, s i := lt_of_le_of_ne hprod_nn (Ne.symm hprod_ne)
  have huv : U.det * Vh.det = 1 ∨ U.det * Vh.det = -1 := by
    rcases hdU with h1 | h1 <;> rcases hdV with h2 | h2 <;> simp [h1, h2]
  have hsign : qSign matrix.det = U.det * Vh.det := by
    have : matrix.det = (U.det * Vh.det) * (∏ i, s i) := by rw [hfacd]; ring
    rw [this, qSign_mul_unit huv hprod_pos]
  have : (rotationM matrix U Vh).det
      = Vh.det * (qSign matrix.det * U.det) := by
    rw [rotationM, Matrix.det_mul, Matrix.det_mul, Matrix.det_transpose,
      Matrix.det_transpose, corrMat_det]
  rw [this, hsign]
  rcases hdU with h1 | h1 <;> rcases hdV with h2 | h2 <;> rw [h1, h2] <;> norm_num

/-- C1 (amended): for every target/mobile pair and optional weights processed
by the superposition engine, and every valid SVD of the resulting
cross-covariance matrix whose determinant is nonzero, the rotation
`Vh.T · diag(1,1,sign(det M)) · U.T` is a proper rotation with determinant
`+1`. -/
theorem superpose_rotation_det_one (w : Option (List ℚ)) (tar mob : Coords)
    (U Vh : Mat3) (s : Fin 3 → ℚ)
    (hsvd : IsSVDOf (covMatrix w tar mob) U s Vh)
    (hdet : (covMatrix w tar mob).det ≠ 0) :
    (rotationM (covMatrix w tar mob) U Vh).det = 1 :=
  rotation_det_eq_one hsvd hdet

/-- Degenerate (collinear) target used to refute the claim at `det(M) = 0`:
two atoms on the x-axis. -/
def tarDegen : Coords := [![0, 0, 0], ![1, 0, 0]]

/-- Nondegenerate octahedral configuration (six atoms on the axes), whose
self cross-covariance matrix is `diag(2, 2, 2)`. -/
def tarOcta : Coords :=
  [![1, 0, 0], ![-1, 0, 0], ![0, 1, 0], ![0, -1, 0], ![0, 0, 1], ![0, 0, -1]]

lemma covMatrix_tarOcta :
    covMatrix none tarOcta tarOcta = Matrix.diagonal ![2, 2, 2] := by
  ext i j
  fin_cases i <;> fin_cases j <;>
    simp [covMatrix, covAB, centerRows, vmean, vsum, vadd, vsub, vzero,
      tarOcta, Matrix.diagonal_apply] <;> norm_num

lemma covMatrix_tarDegen :
    covMatrix none tarDegen tarDegen = Matrix.diagonal ![1/2, 0, 0] := by
  ext i j
  fin_cases i <;> fin_cases j <;>
    simp [covMatrix, covAB, centerRows, vmean, vsum, vadd, vsub, vzero,
      tarDegen, Matrix.diagonal_apply] <;> norm_num

/-- Witness for `superpose_rotation_det_one`: the identity SVD of the
cross-covariance matrix of a nondegenerate pair gives a rotation of
determinant `+1`. -/
theorem superpose_rotation_det_one_witness :
    IsSVDOf (covMatrix none tarOcta tarOcta) 1 ![2, 2, 2] 1 ∧
    (covMatrix none tarOcta tarOcta).det ≠ 0 ∧
    (rotationM (covMatrix none tarOcta tarOcta) 1 1).det = 1 := by
  have hsvd : IsSVDOf (covMatrix none tarOcta tarOcta) 1 ![2, 2, 2] 1 := by
    refine ⟨by simp [IsOrtho], by simp [IsOrtho], ?_, ?_⟩
    · simp only [Matrix.one_mul, Matrix.mul_one]
      exact covMatrix_tarOcta
    · intro i; fin_cases i <;> norm_num
  have hdet : (covMatrix none tarOcta tarOcta).det ≠ 0 := by
    rw [covMatrix_tarOcta]
    simp [Matrix.det_diagonal, Fin.prod_univ_three]
  exact ⟨hsvd, hdet, superpose_rotation_det_one none _ _ 1 1 _ hsvd hdet⟩

/-- C1 (counterexample): on a degenerate collinear pair the cross-covariance
matrix has determinant `0`, `numpy.sign` returns `0`, and the computed matrix
`Vh.T · diag(1,1,0) · U.T` has determinant `0`, not `+1` — it is singular, not
a proper rotation.  (`U = Vh = I`, `s = (1/2, 0, 0)` is the valid — and the
actual numpy — SVD of the diagonal matrix `M = diag(1/2, 0, 0)` that the
engine builds from this pair.) -/
theorem superpose_rotation_det_degenerate :
    IsSVDOf (covMatrix none tarDegen tarDegen) 1 ![1/2, 0, 0] 1 ∧
    (covMatrix none tarDegen tarDegen).det = 0 ∧
    (rotationM (covMatrix none tarDegen tarDegen) 1 1).det = 0 := by
  have hdet : (covMatrix none tarDegen tarDegen).det = 0 := by
    rw [covMatrix_tarDegen]
    simp [Matrix.det_diagonal, Fin.prod_univ_three]
  refine ⟨⟨by simp [IsOrtho], by simp [IsOrtho], ?_, ?_⟩, hdet, ?_⟩
  · simp only [Matrix.one_mul, Matrix.mul_one]
    exact covMatrix_tarDegen
  · intro i; fin_cases i <;> norm_num
  · simp [rotationM, Matrix.transpose_one, Matrix.one_mul, Matrix.mul_one,
      corrMat_det, hdet, qSign]

/-! ## The ensemble data model -/

/-- `self._weights`: either an `(N, 1)` per-atom column or an `(M, N, 1)`
per-conformation array (spec §3). -/
inductive WeightsV where
  | perAtom (w : List ℚ)
  | perConf (w : List (List ℚ))

/-- The mutable state of an `Ensemble` object (ensemble.py:32-41; the cosmetic
`_title` is omitted, and `_atoms` is modelled by the atom count of the stored
atom group, the only property of it the modelled methods consult). -/
structure EnsState where
  coords : Option Coords
  n_atoms : ℕ
  n_csets : ℕ
  weights : Option WeightsV
  atoms : Option ℕ
  indices : Option (List ℕ)
  confs : Option Confs

/-- `numpy` fancy-indexing `c[idx]` for an index array known to be in range
(the stored selection invariant); an out-of-range position yields the zero
row where numpy would raise. -/
def selectRows (c : Coords) (idx : List ℕ) : Coords :=
  idx.map (fun j => c.getD j vzero)

/-- `weights[indices]` for an `(N, 1)` weight column (ensemble.py:521). -/
def selectW (w : List ℚ) (idx : List ℕ) : List ℚ :=
  idx.map (fun j => w.getD j 0)

/-- One row of `numpy.dot(c, R)` for an `(N, 3)` array and a 3×3 matrix. -/
def rowMulM (v : V3) (R : Mat3) : V3 := fun b => ∑ a, v a * R a b

/-- `numpy.dot(c, R)` for an `(N, 3)` array and a 3×3 matrix. -/
def matApply (c : Coords) (R : Mat3) : Coords := c.map (fun v => rowMulM v R)

/-- Result of the external `linalg.svd` call (ensemble.py:526/554). -/
structure SVDOut where
  U : Mat3
  s : Fin 3 → ℚ
  Vh : Mat3

/-- The external linear-algebra collaborator: given the 3×3 cross-covariance
matrix, produce the SVD factors.  Theorems that rely on SVD guarantees take
`IsSVDOf` as a hypothesis; theorems about control flow and frame effects hold
for every oracle. -/
abbrev SVDOracle := Mat3 → SVDOut

/-! ## The superposition engine -/

/-- The per-conformation body of the loop in `Ensemble._superpose`
(ensemble.py:542-563): fit the (selection-restricted) mobile frame `mob`
against the (selection-restricted) target `tar`, then transform either
`mob_org` itself (no selection, `movs is None`, ensemble.py:558-560) or the
full-atom frame `mov` (selection active, ensemble.py:561-563). -/
def superposeOne (svd : SVDOracle) (w : Option (List ℚ)) (tar mob : Coords)
    (mov : Option Coords) : Coords :=
  let tar_com := match w with | none => vmean tar | some w => wcom w tar
  let mob_com := match w with | none => vmean mob | some w => wcom w mob
  let mob_org := centerRows mob mob_com
  let matrix := covMatrix w tar mob
  let out := svd matrix
  let rot := rotationM matrix out.U out.Vh
  match mov with
  | none =>
      (matApply mob_org rot).map (fun v => vadd v tar_com)
  | some full =>
      (matApply full rot).map (fun v => vadd v (vsub tar_com (rowMulM mob_com rot)))

/-- `Ensemble._superpose` (ensemble.py:508-565): returns the new conformation
stack.  Reads `self._indices`, `self._weights`, `self._coords` (the target)
and `self._confs`; with a selection the fit uses the selected sub-arrays and
the transform is applied to each full frame (`movs`), otherwise frames are
transformed directly.  With `(M, N, 1)` per-conformation weights the base
class's `dot(weights.T, weights)` (ensemble.py:536) raises
`ValueError: shapes not aligned` whenever `M ≠ N` (and for `M = N` the 4-D
intermediates it builds fail on the in-place assignment): the base `Ensemble`
only supports `(N, 1)` weights here, so this branch is modelled as that
error. -/
def _superpose (svd : SVDOracle) (indices : Option (List ℕ))
    (weights : Option WeightsV) (coords : Coords) (confs : Confs) :
    Except PyErr Confs :=
  match weights with
  | some (.perConf _) => .error .valueError
  | w2 =>
    let wFull : Option (List ℚ) := match w2 with
      | some (.perAtom w) => some w
      | _ => none
    match indices with
    | none =>
        .ok (confs.map (fun mob => superposeOne svd wFull coords mob none))
    | some idx =>
        let w' := wFull.map (fun w => selectW w idx)
        let tar := selectRows coords idx
        .ok (confs.map (fun mob =>
          superposeOne svd w' tar (selectRows mob idx) (some mob)))

/-- `Ensemble.superpose` (ensemble.py:496-506): precondition checks
(`ValueError` when the reference coordinates or the conformations are unset),
then `_superpose` over the whole stack. -/
def superpose (svd : SVDOracle) (s : EnsState) : Except PyErr EnsState :=
  if s.coords = none then .error .valueError
  else if s.confs = none ∨ s.confs = some [] then .error .valueError
  else
    match _superpose svd s.indices s.weights (s.coords.getD []) (s.confs.getD []) with
    | .error e => .error e
    | .ok cs' => .ok { s with confs := some cs' }

lemma _superpose_ok_map {svd indices weights coords confs cs'}
    (h : _superpose svd indices weights coords confs = .ok cs') :
    ∃ f : Coords → Coords, cs' = confs.map f := by
  unfold _superpose at h
  rcases weights with _ | w
  · rcases indices with _ | idx
    · exact ⟨_, (Except.ok.injEq _ _ ▸ h).symm⟩
    · exact ⟨_, (Except.ok.injEq _ _ ▸ h).symm⟩
  · rcases w with w | w
    · rcases indices with _ | idx
      · exact ⟨_, (Except.ok.injEq _ _ ▸ h).symm⟩
      · exact ⟨_, (Except.ok.injEq _ _ ▸ h).symm⟩
    · exact absurd h (by simp)

/-- C3: whenever `superpose()` succeeds it replaces the conformation stack in
place — same number of frames, each the transform of the original — while the
reference coordinates, the atom count, the conformation count, the weights,
the stored atoms, and the selection are all unchanged. -/
theorem superpose_frame_effect (svd : SVDOracle) (s s' : EnsState)
    (h : superpose svd s = .ok s') :
    s'.coords = s.coords ∧ s'.n_atoms = s.n_atoms ∧ s'.n_csets = s.n_csets ∧
    s'.weights = s.weights ∧ s'.atoms = s.atoms ∧ s'.indices = s.indices ∧
    ∃ cs cs', s.confs = some cs ∧ s'.confs = some cs' ∧ cs'.length = cs.length := by
  unfold superpose at h
  split at h
  · exact absurd h (by simp)
  · split at h
    · exact absurd h (by simp)
    · rename_i hco hcf
      rcases hm : _superpose svd s.indices s.weights (s.coords.getD [])
          (s.confs.getD []) with e | cs'
      · rw [hm] at h; exact absurd h (by simp)
      · rw [hm] at h
        obtain ⟨f, hf⟩ := _superpose_ok_map hm
        have hs' : s' = { s with confs := some cs' } := by
          simpa using h.symm
        subst hs'
        have hcne : s.confs ≠ none := fun hh => hcf (Or.inl hh)
        obtain ⟨cs, hcs⟩ := Option.ne_none_iff_exists'.mp hcne
        refine ⟨rfl, rfl, rfl, rfl, rfl, rfl, cs, cs', hcs, rfl, ?_⟩
        rw [hf, hcs]
        simp

/-! ## Iterative superposition -/

/-- Modelled from the spec: `getRMSD` (prody.measure, not under src/) computes
the unweighted root-mean-square deviation `sqrt(Σ_i ‖x_i − y_i‖² / N)` between
two `(N, 3)` coordinate sets.  `sqDev` is one atom's squared deviation. -/
def sqDev (a b : V3) : ℚ := ∑ k, (a k - b k) ^ 2

/-- Modelled from the spec: the quantity under `getRMSD`'s square root,
`Σ_i ‖x_i − y_i‖² / N`; the RMSD itself is `Real.sqrt (rmsdSq x y)`. -/
def rmsdSq (x y : Coords) : ℚ :=
  ((x.zip y).map (fun p => sqDev p.1 p.2)).sum / x.length

/-- The value of the local variable `rmsdif` in `Ensemble.iterpose`: either
the sentinel `1` it is initialised to (ensemble.py:588), or
`getRMSD(old, new) = sqrt(msd)` (ensemble.py:600), carried symbolically so
that the loop stays within exact rational arithmetic. -/
inductive RmsDif where
  | initial
  | sqrtOf (msd : ℚ)

/-- The loop guard `rmsdif > rmsd` (ensemble.py:594).  For the sentinel this
is `1 > rmsd`; for `rmsdif = sqrt(msd)` (with `msd ≥ 0`) it is equivalent to
`rmsd < 0 ∨ rmsd² < msd` (see `rmsDifGt_sqrtOf_iff`). -/
def rmsDifGt (r : RmsDif) (tol : ℚ) : Prop :=
  match r with
  | .initial => tol < 1
  | .sqrtOf m => tol < 0 ∨ tol ^ 2 < m

instance (r : RmsDif) (tol : ℚ) : Decidable (rmsDifGt r tol) := by
  unfold rmsDifGt
  cases r <;> infer_instance

/-- Soundness of the symbolic guard encoding: for a nonnegative mean squared
deviation it agrees with the source's `sqrt(msd) > rmsd` comparison. -/
lemma rmsDifGt_sqrtOf_iff (m tol : ℚ) (hm : 0 ≤ m) :
    rmsDifGt (.sqrtOf m) tol ↔ (tol : ℝ) < Real.sqrt (m : ℝ) := by
  unfold rmsDifGt
  rcases lt_or_le tol 0 with ht | ht
  · constructor
    · intro _
      exact lt_of_lt_of_le (by exact_mod_cast ht) (Real.sqrt_nonneg _)
    · intro _
      exact Or.inl ht
  · rw [show ((tol : ℝ) < Real.sqrt (m : ℝ)) ↔ ((tol : ℝ) ^ 2 < (m : ℝ)) from
      Real.lt_sqrt (by exact_mod_cast ht)]
    constructor
    · intro h
      rcases h with h | h
      · exact absurd h (not_lt.mpr ht)
      · exact_mod_cast h
    · intro h
      exact Or.inr (by exact_mod_cast h)

/-- Elementwise sum of the frames of an `(M, N, 3)` stack
(`numpy .sum(axis=0)` over the conformation axis). -/
def confsSum (cs : Confs) : Coords :=
  match cs with
  | [] => []
  | c :: rest => rest.foldl (fun acc c' => List.zipWith vadd acc c') c

/-- Per-atom column sums of an `(M, N, 1)` weight array
(`weightsum = weights.sum(axis=0)`, ensemble.py:592). -/
def colSums (w : List (List ℚ)) : List ℚ :=
  match w with
  | [] => []
  | r :: rest => rest.foldl (fun acc r' => List.zipWith (fun a b => a + b) acc r') r

/-- The reference update of the `iterpose` loop body (ensemble.py:596-599):
`newxyz = confs.sum(0) / length` when weights are absent, and
`(confs * weights).sum(0) / weightsum` for `(M, N, 1)` weights.  For `(N, 1)`
weights the local `weightsum` is only assigned under `weights.ndim == 3`
(ensemble.py:591-592), so Python raises `NameError` at its use. -/
def iterposeNewRef (w : Option WeightsV) (len : ℕ) (cs : Confs) :
    Except PyErr Coords :=
  match w with
  | none => .ok ((confsSum cs).map (fun v => fun i => v i / (len : ℚ)))
  | some (.perAtom _) => .error .nameError
  | some (.perConf w) =>
      let scaled := List.zipWith (fun wm cm => scaleRows wm cm) w cs
      .ok (List.zipWith (fun v ws => fun i => v i / ws) (confsSum scaled) (colSums w))

/-- The `while rmsdif > rmsd` loop of `Ensemble.iterpose` (ensemble.py:594-604)
with an explicit fuel bound on the number of iterations; `none` models
nontermination within the fuel (the source imposes no iteration cap).  Each
pass superposes, recomputes the reference as `newxyz`, measures
`rmsdif = getRMSD(old, new)` and adopts the new reference. -/
def iterposeGo (svd : SVDOracle) (tol : ℚ) (w : Option WeightsV)
    (idx : Option (List ℕ)) (len : ℕ) :
    ℕ → RmsDif → Coords → Confs → Option (Except PyErr (RmsDif × Coords × Confs))
  | 0, _, _, _ => none
  | fuel + 1, r, coords, cs =>
    if rmsDifGt r tol then
      match _superpose svd idx w coords cs with
      | .error e => some (.error e)
      | .ok cs' =>
        match iterposeNewRef w len cs' with
        | .error e => some (.error e)
        | .ok newxyz =>
            iterposeGo svd tol w idx len fuel
              (.sqrtOf (rmsdSq coords newxyz)) newxyz cs'
    else some (.ok (r, coords, cs))

/-- `Ensemble.iterpose` (ensemble.py:567-606): precondition checks raising
`AttributeError` (ensemble.py:581-585), then the refinement loop.  `.ok none`
means the loop had not terminated within `fuel` iterations; on normal return
the final `rmsdif`, reference and conformations are reported. -/
def iterpose (svd : SVDOracle) (tol : ℚ) (fuel : ℕ) (s : EnsState) :
    Except PyErr (Option (RmsDif × EnsState)) :=
  if s.coords = none then .error .attributeError
  else if s.confs = none ∨ s.confs = some [] then .error .attributeError
  else
    match iterposeGo svd tol s.weights s.indices s.n_csets fuel
        .initial (s.coords.getD []) (s.confs.getD []) with
    | none => .ok none
    | some (.error e) => .error e
    | some (.ok (r, c, cs)) =>
        .ok (some (r, { s with coords := some c, confs := some cs }))

lemma sqDev_nonneg (a b : V3) : 0 ≤ sqDev a b :=
  Finset.sum_nonneg fun _ _ => sq_nonneg _

lemma rmsdSq_nonneg (x y : Coords) : 0 ≤ rmsdSq x y := by
  unfold rmsdSq
  refine div_nonneg (List.sum_nonneg ?_) (Nat.cast_nonneg _)
  intro q hq
  obtain ⟨p, _, hp⟩ := List.mem_map.mp hq
  exact hp ▸ sqDev_nonneg p.1 p.2

lemma iterposeGo_ok {svd : SVDOracle} {tol : ℚ} {w : Option WeightsV}
    {idx : Option (List ℕ)} {len : ℕ} (htol : tol < 1) :
    ∀ (fuel : ℕ) (r : RmsDif) (coords : Coords) (cs : Confs),
      (r = .initial ∨ ∃ m, r = .sqrtOf m ∧ 0 ≤ m ∧
        iterposeNewRef w len cs = .ok coords) →
      ∀ res, iterposeGo svd tol w idx len fuel r coords cs = some (.ok res) →
        ∃ m, res.1 = .sqrtOf m ∧ 0 ≤ m ∧ 0 ≤ tol ∧ m ≤ tol ^ 2 ∧
          iterposeNewRef w len res.2.2 = .ok res.2.1 := by
  intro fuel
  induction fuel with
  | zero => intro r coords cs _ res h; simp [iterposeGo] at h
  | succ fuel ih =>
    intro r coords cs hinv res h
    rw [iterposeGo] at h
    split at h
    · rcases hsup : _superpose svd idx w coords cs with e | cs'
      · rw [hsup] at h; simp at h
      · rw [hsup] at h
        dsimp only at h
        rcases hnew : iterposeNewRef w len cs' with e | newxyz
        · rw [hnew] at h; simp at h
        · rw [hnew] at h
          exact ih _ _ _ (Or.inr ⟨_, rfl, rmsdSq_nonneg _ _, hnew⟩) res h
    · rename_i hstop
      have hres : res = (r, coords, cs) := by simpa using h.symm
      subst hres
      rcases hinv with hr | ⟨m, hr, hm, hmean⟩
      · exact absurd (show rmsDifGt r tol from hr ▸ htol) hstop
      · subst hr
        unfold rmsDifGt at hstop
        rw [not_or, not_lt, not_lt] at hstop
        exact ⟨m, rfl, hm, hstop.1, hstop.2, hmean⟩

lemma sqrt_le_of_sq_le {m tol : ℚ} (ht : 0 ≤ tol) (h : m ≤ tol ^ 2) :
    Real.sqrt (m : ℝ) ≤ (tol : ℝ) := by
  have h' : (m : ℝ) ≤ (tol : ℝ) ^ 2 := by exact_mod_cast h
  have := Real.sqrt_le_sqrt h'
  rwa [Real.sqrt_sq (by exact_mod_cast ht)] at this

/-- C2 (amended): for a tolerance below the sentinel value `1`, whenever
`iterpose` returns normally, the loop has stopped exactly because the RMSD
between the old and the new reference fell to ≤ the tolerance, and at that
point the reference equals the (weighted, if 3-D weights are present) mean of
the final superposed conformation stack.  (For `tol ≥ 1` the loop exits
before its first iteration — see `iterpose_tol_one_skips_loop`.) -/
theorem iterpose_terminates_at_mean (svd : SVDOracle) (tol : ℚ) (fuel : ℕ)
    (s : EnsState) (r : RmsDif) (s' : EnsState) (htol : tol < 1)
    (h : iterpose svd tol fuel s = .ok (some (r, s'))) :
    ∃ m c cs, r = .sqrtOf m ∧ 0 ≤ m ∧ Real.sqrt (m : ℝ) ≤ (tol : ℝ) ∧
      s'.coords = some c ∧ s'.confs = some cs ∧
      iterposeNewRef s.weights s.n_csets cs = .ok c := by
  unfold iterpose at h
  split at h
  · simp at h
  · split at h
    · simp at h
    · rcases hgo : iterposeGo svd tol s.weights s.indices s.n_csets fuel
          .initial (s.coords.getD []) (s.confs.getD []) with _ | er
      · rw [hgo] at h; simp at h
      · rw [hgo] at h
        rcases er with e | ⟨r', c, cs⟩
        · simp at h
        · simp only [Except.ok.injEq, Option.some.injEq, Prod.mk.injEq] at h
          obtain ⟨hr, hs'⟩ := h
          obtain ⟨m, hm1, hm2, hm3, hm4, hm5⟩ :=
            iterposeGo_ok htol fuel .initial (s.coords.getD []) (s.confs.getD [])
              (Or.inl rfl) (r', c, cs) hgo
          refine ⟨m, c, cs, hr ▸ hm1, hm2, sqrt_le_of_sq_le hm3 hm4, ?_, ?_, hm5⟩
          · rw [← hs']
          · rw [← hs']

/-! ## Concrete states for witnesses and counterexamples -/

/-- A trivial SVD oracle (theorems about control flow hold for any oracle). -/
def svdTrivial : SVDOracle := fun _ => ⟨1, ![1, 1, 1], 1⟩

/-- A one-atom ensemble: reference at the origin, one conformation at
`(1, 0, 0)`, no weights, no selection. -/
def ens3 : EnsState :=
  { coords := some [![0, 0, 0]], n_atoms := 1, n_csets := 1,
    weights := none, atoms := none, indices := none,
    confs := some [[![1, 0, 0]]] }

/-- A freshly constructed ensemble: nothing set (ensemble.py:32-41). -/
def emptyEns : EnsState :=
  { coords := none, n_atoms := 0, n_csets := 0, weights := none,
    atoms := none, indices := none, confs := none }

/-- A single-atom frame is always superposed exactly onto a single-atom
target: centering sends the mobile atom to the origin, so the (arbitrary)
rotation acts on the zero row and the translation lands on the target. -/
lemma superposeOne_single (svd : SVDOracle) (t v : V3) :
    superposeOne svd none [t] [v] none = [t] := by
  unfold superposeOne matApply centerRows
  simp only [List.map_cons, List.map_nil, List.cons.injEq, and_true]
  funext b
  simp [vadd, vsub, rowMulM, vmean, vsum, vzero, Fin.sum_univ_three]

/-- Witness for `superpose_frame_effect`: a concrete successful superposition
leaving reference, counts, weights and selection unchanged. -/
theorem superpose_frame_effect_witness :
    ∃ s', superpose svdTrivial ens3 = .ok s' ∧ s'.coords = ens3.coords ∧
      s'.n_csets = ens3.n_csets ∧ s'.weights = ens3.weights ∧
      s'.indices = ens3.indices := by
  refine ⟨_, rfl, ?_⟩
  have h := superpose_frame_effect svdTrivial ens3 _ rfl
  exact ⟨h.1, h.2.2.1, h.2.2.2.1, h.2.2.2.2.2.1⟩

/-- C5 (amended): both `superpose` and `iterpose` fail when the reference
coordinates are unset or no conformations have been added, in both cases
before any state is touched — but with DIFFERENT error classes: `superpose`
raises `ValueError` (ensemble.py:499-502) while `iterpose` raises
`AttributeError` (ensemble.py:581-585). -/
theorem superpose_iterpose_preconditions (svd : SVDOracle) (tol : ℚ)
    (fuel : ℕ) (s : EnsState)
    (h : s.coords = none ∨ s.confs = none ∨ s.confs = some []) :
    superpose svd s = .error .valueError ∧
    iterpose svd tol fuel s = .error .attributeError := by
  constructor
  · unfold superpose
    by_cases hc : s.coords = none
    · rw [if_pos hc]
    · rw [if_neg hc, if_pos (h.resolve_left hc)]
  · unfold iterpose
    by_cases hc : s.coords = none
    · rw [if_pos hc]
    · rw [if_neg hc, if_pos (h.resolve_left hc)]

/-- Witness for `superpose_iterpose_preconditions` at the fresh ensemble,
with the documented default tolerance `0.0001`. -/
theorem superpose_iterpose_preconditions_witness :
    (emptyEns.coords = none ∨ emptyEns.confs = none ∨ emptyEns.confs = some []) ∧
    (superpose svdTrivial emptyEns = .error .valueError ∧
      iterpose svdTrivial (1/10000) 5 emptyEns = .error .attributeError) :=
  ⟨Or.inl rfl,
   superpose_iterpose_preconditions svdTrivial (1/10000) 5 emptyEns (Or.inl rfl)⟩

/-- C5 (counterexample): the two precondition failures do NOT share an error
class — on the same fresh ensemble `superpose` raises `ValueError` while
`iterpose` raises `AttributeError`. -/
theorem superpose_iterpose_error_classes_differ :
    superpose svdTrivial emptyEns = .error .valueError ∧
    iterpose svdTrivial (2/10000) 7 emptyEns = .error .attributeError ∧
    PyErr.valueError ≠ PyErr.attributeError :=
  ⟨rfl, rfl, by simp⟩

lemma iterposeNewRef_single (t : V3) :
    iterposeNewRef none 1 [[t]] = .ok [t] := by
  simp only [iterposeNewRef, confsSum, List.foldl_nil, List.map_cons,
    List.map_nil, Nat.cast_one, Except.ok.injEq, List.cons.injEq, and_true]
  funext i
  simp

lemma rmsdSq_self_single (t : V3) : rmsdSq [t] [t] = 0 := by
  simp [rmsdSq, sqDev, List.zip_cons_cons, sub_self]

/-- The state of `ens3` after one converged `iterpose` run: reference and
conformation both at the origin. -/
def ens3conv : EnsState :=
  { ens3 with coords := some [![0, 0, 0]], confs := some [[![0, 0, 0]]] }

/-- One full run of `iterpose` on the one-atom ensemble at tolerance `0`:
one superposition step, then the guard fails with `rmsdif = sqrt 0`. -/
lemma iterpose_ens3_run :
    iterpose svdTrivial 0 2 ens3 = .ok (some (.sqrtOf 0, ens3conv)) := by
  have hsup : _superpose svdTrivial none none [![0, 0, 0]] [[![1, 0, 0]]]
      = .ok [[![0, 0, 0]]] := by
    unfold _superpose
    simp only [List.map_cons, List.map_nil]
    rw [superposeOne_single]
  have h1 : iterposeGo svdTrivial 0 none none 1 2 .initial
      [![0, 0, 0]] [[![1, 0, 0]]]
      = some (.ok (.sqrtOf 0, [![0, 0, 0]], [[![0, 0, 0]]])) := by
    rw [iterposeGo, if_pos (show rmsDifGt .initial 0 by norm_num [rmsDifGt])]
    simp only [hsup, iterposeNewRef_single, rmsdSq_self_single]
    rw [iterposeGo, if_neg (show ¬rmsDifGt (.sqrtOf 0) 0 by norm_num [rmsDifGt])]
  unfold iterpose
  rw [if_neg (by simp [ens3]), if_neg (by simp [ens3])]
  show (match iterposeGo svdTrivial 0 none none 1 2 .initial
      [![0, 0, 0]] [[![1, 0, 0]]] with
    | none => (.ok none : Except PyErr (Option (RmsDif × EnsState)))
    | some (.error e) => .error e
    | some (.ok (r, c, cs)) => .ok (some (r, { ens3 with coords := some c, confs := some cs }))) = _
  rw [h1]
  rfl

/-- Witness for `iterpose_terminates_at_mean`: the one-atom ensemble converges
in one iteration at tolerance `0`, and the final reference is the mean of the
final conformation stack. -/
theorem iterpose_terminates_at_mean_witness :
    ((0 : ℚ) < 1) ∧
    ∃ m c cs, RmsDif.sqrtOf (0 : ℚ) = .sqrtOf m ∧ 0 ≤ m ∧
      Real.sqrt (m : ℝ) ≤ ((0 : ℚ) : ℝ) ∧
      ens3conv.coords = some c ∧ ens3conv.confs = some cs ∧
      iterposeNewRef ens3.weights ens3.n_csets cs = .ok c :=
  ⟨by norm_num,
   iterpose_terminates_at_mean svdTrivial 0 2 ens3 (.sqrtOf 0) ens3conv
     (by norm_num) iterpose_ens3_run⟩

/-- C2 (counterexample): with caller-supplied tolerance `1` (or larger) the
sentinel `rmsdif = 1` already fails the guard `rmsdif > rmsd`: `iterpose`
returns after zero iterations, no RMSD between old and new reference is ever
computed, and the reference is NOT the mean of the conformation stack (here
the reference stays at the origin while the mean is `(1,0,0)`). -/
theorem iterpose_tol_one_skips_loop :
    iterpose svdTrivial 1 10 ens3 = .ok (some (.initial, ens3)) ∧
    iterposeNewRef ens3.weights ens3.n_csets ((ens3.confs).getD [])
      = .ok [![1, 0, 0]] ∧
    ens3.coords ≠ some [![1, 0, 0]] := by
  refine ⟨?_, ?_, ?_⟩
  · unfold iterpose
    rw [if_neg (by simp [ens3]), if_neg (by simp [ens3])]
    show (match iterposeGo svdTrivial 1 none none 1 10 .initial
        [![0, 0, 0]] [[![1, 0, 0]]] with
      | none => (.ok none : Except PyErr (Option (RmsDif × EnsState)))
      | some (.error e) => .error e
      | some (.ok (r, c, cs)) => .ok (some (r, { ens3 with coords := some c, confs := some cs }))) = _
    rw [iterposeGo, if_neg (show ¬rmsDifGt .initial 1 by norm_num [rmsDifGt])]
    rfl
  · exact iterposeNewRef_single ![1, 0, 0]
  · intro h
    have hsome := Option.some.inj h
    injection hsome with h1 _
    have h2 := congrFun h1 0
    norm_num at h2

/-! ## Adding and reading coordinate sets -/

/-- `Ensemble.numSelected` (ensemble.py:172-177). -/
def numSelected (s : EnsState) : ℕ :=
  match s.indices with
  | none => s.n_atoms
  | some l => l.length

/-- A raw numpy coordinate argument to `addCoordset`: a single `(N, 3)` frame
or a `(K, N, 3)` stack.  (Object sources — ensembles, atomics — are resolved
to such arrays by the accessor calls at ensemble.py:337-359 and then follow
this same path.) -/
inductive CoordsInput where
  | one (c : Coords)
  | many (cs : Confs)

/-- Modelled from the spec: the rank/shape validation of `checkCoords`
(prody.utilities, not under src/) combined with the reshape at
ensemble.py:370-375: a 2-D `(N, 3)` frame is promoted to a 1-frame stack; a
stack must be non-empty and rectangular (a ragged or empty input fails
`checkCoords`'s array checks).  Returns `(n_confs, n_nodes, frames)`. -/
def checkShape (input : CoordsInput) : Except PyErr (ℕ × ℕ × Confs) :=
  match input with
  | .one c => .ok (1, c.length, [c])
  | .many [] => .error .typeError
  | .many (c :: rest) =>
      if (c :: rest).all (fun f => f.length == c.length) then
        .ok ((c :: rest).length, c.length, c :: rest)
      else .error .typeError

/-- `full[:, sel, :] = coords` for one frame (ensemble.py:382): start from the
reference frame and write `row[t]` at position `sel[t]`. -/
def scatterRow (ref : Coords) (sel : List ℕ) (row : Coords) : Coords :=
  (sel.zip row).foldl (fun acc p => acc.set p.1 p.2) ref

/-- `Ensemble.addCoordset` (ensemble.py:330-389) after shape extraction: the
two-stage `checkCoords` (against `n_atoms`, falling back to `n_select`,
ensemble.py:361-368), adoption of `N` on a fresh ensemble (ensemble.py:377-378),
the selection scatter using the reference for unselected atoms
(ensemble.py:380-383), and concatenation (ensemble.py:385-389). -/
def addCoordsetChecked (s : EnsState) (n_confs n_nodes : ℕ) (coords : Confs) :
    Except PyErr EnsState :=
  if s.n_atoms ≠ 0 ∧ n_nodes ≠ s.n_atoms ∧ n_nodes ≠ numSelected s then
    .error .valueError
  else
    let n_atoms' := if s.n_atoms = 0 then n_nodes else s.n_atoms
    if n_nodes = numSelected s ∧ s.indices.isSome then
      match s.coords with
      | none => .error .typeError
      | some ref =>
          let idx := s.indices.getD []
          let full := coords.map (fun c => scatterRow ref idx c)
          let newConfs := match s.confs with
            | none => full
            | some cur => cur ++ full
          .ok { s with n_atoms := n_atoms', confs := some newConfs,
                       n_csets := s.n_csets + n_confs }
    else
      let newConfs := match s.confs with
        | none => coords
        | some cur => cur ++ coords
      .ok { s with n_atoms := n_atoms', confs := some newConfs,
                   n_csets := s.n_csets + n_confs }

/-- `Ensemble.addCoordset` on a raw coordinate array. -/
def addCoordset (s : EnsState) (input : CoordsInput) : Except PyErr EnsState :=
  match checkShape input with
  | .error e => .error e
  | .ok (n_confs, n_nodes, coords) => addCoordsetChecked s n_confs n_nodes coords

/-- The frame-index argument of `getCoordsets`: `None` (all frames) or an
integer (numpy semantics, negative wraps).  List and slice indices go through
the very same `try/except IndexError` blocks (ensemble.py:402-423) and are
not modelled separately. -/
inductive CsetIndex where
  | all
  | int (i : ℤ)

/-- A result of `getCoordsets`: a single `(N, 3)` frame (integer index) or an
`(M, N, 3)` stack. -/
inductive CsetsOut where
  | one (c : Coords)
  | many (cs : Confs)

/-- numpy integer indexing on the first (conformation) axis: a negative index
wraps; out of range returns `none` (numpy raises `IndexError`). -/
def npGetFrame (cs : Confs) (i : ℤ) : Option Coords :=
  let n : ℤ := cs.length
  let j := if i < 0 then i + n else i
  if 0 ≤ j ∧ j < n then cs.get? j.toNat else none

/-- `Ensemble.getCoordsets` (ensemble.py:391-426).  On an out-of-range integer
index the numpy `IndexError` is caught and passed (ensemble.py:403-406); the
next statement `coords.base` then reads the never-assigned local `coords`, so
Python raises `UnboundLocalError` (a `NameError`): the final
`raise IndexError(...)` at ensemble.py:425 is unreachable.  The copy-vs-view
logic (`coords.base is None`) is immaterial in a functional model. -/
def getCoordsets (s : EnsState) (indices : CsetIndex) (selected : Bool) :
    Except PyErr (Option CsetsOut) :=
  match s.confs with
  | none => .ok none
  | some cs =>
    if s.indices = none ∨ selected = false then
      match indices with
      | .all => .ok (some (.many cs))
      | .int i =>
          match npGetFrame cs i with
          | some c => .ok (some (.one c))
          | none => .error .nameError
    else
      let selids := s.indices.getD []
      match indices with
      | .all => .ok (some (.many (cs.map (fun c => selectRows c selids))))
      | .int i =>
          match npGetFrame cs i with
          | some c => .ok (some (.one (selectRows c selids)))
          | none => .error .nameError

/-- `Ensemble._getCoordsets` (ensemble.py:428-448): same dispatch, but here
the caught `IndexError` really does fall through to the final
`raise IndexError(...)` (ensemble.py:447-448). -/
def _getCoordsets (s : EnsState) (indices : CsetIndex) :
    Except PyErr (Option CsetsOut) :=
  match s.confs with
  | none => .ok none
  | some cs =>
    match s.indices with
    | none =>
        match indices with
        | .all => .ok (some (.many cs))
        | .int i =>
            match npGetFrame cs i with
            | some c => .ok (some (.one c))
            | none => .error .indexError
    | some selids =>
        match indices with
        | .all => .ok (some (.many (cs.map (fun c => selectRows c selids))))
        | .int i =>
            match npGetFrame cs i with
            | some c => .ok (some (.one (selectRows c selids)))
            | none => .error .indexError

/-- C6: on an out-of-range frame index, `_getCoordsets` raises `IndexError`
as specified, but the public `getCoordsets` raises `UnboundLocalError`
instead: its caught-and-passed `IndexError` leaves the local `coords` unbound
at `coords.base` (ensemble.py:403-407), and its own final
`raise IndexError(...)` (ensemble.py:425) is unreachable — a slip, since the
sibling `_getCoordsets` shows the intended fall-through. -/
theorem getCoordsets_out_of_range :
    getCoordsets ens3 (.int 5) true = .error .nameError ∧
    _getCoordsets ens3 (.int 5) = .error .indexError := by
  constructor <;> rfl

lemma scatterRow_get?_of_not_mem (sel : List ℕ) :
    ∀ (ref : Coords) (row : Coords) (j : ℕ), j ∉ sel →
      (scatterRow ref sel row).get? j = ref.get? j := by
  induction sel with
  | nil => intro ref row j _; rfl
  | cons a sel ih =>
    intro ref row j hj
    rcases row with _ | ⟨r, row⟩
    · rfl
    · show (scatterRow (ref.set a r) sel row).get? j = ref.get? j
      rw [ih (ref.set a r) row j (fun hm => hj (List.mem_cons_of_mem a hm))]
      exact List.get?_set_ne r ref (fun ha => hj (ha ▸ List.mem_cons_self a sel))

lemma scatterRow_get?_at (sel : List ℕ) :
    ∀ (ref : Coords) (row : Coords), sel.Nodup →
      (∀ j ∈ sel, j < ref.length) →
      ∀ (t : ℕ) (j : ℕ) (r : V3), sel.get? t = some j → row.get? t = some r →
        (scatterRow ref sel row).get? j = some r := by
  induction sel with
  | nil => intro ref row _ _ t j r hsel _; simp at hsel
  | cons a sel ih =>
    intro ref row hnd hb t j r hsel hrow
    rcases row with _ | ⟨r', row⟩
    · simp at hrow
    · show (scatterRow (ref.set a r') sel row).get? j = some r
      rcases t with _ | t
      · simp only [List.get?_cons_zero, Option.some.injEq] at hsel hrow
        subst hsel
        subst hrow
        rw [scatterRow_get?_of_not_mem sel _ _ _ (List.nodup_cons.mp hnd).1]
        exact List.get?_set_eq_of_lt _ (hb _ (List.mem_cons_self _ _))
      · simp only [List.get?_cons_succ] at hsel hrow
        refine ih (ref.set a r') row (List.nodup_cons.mp hnd).2 ?_ t j r hsel hrow
        intro x hx
        rw [List.length_set]
        exact hb x (List.mem_cons_of_mem a hx)

lemma npGetFrame_concat (cs : Confs) (c : Coords) :
    npGetFrame (cs ++ [c]) ((cs.length : ℤ)) = some c := by
  simp only [npGetFrame]
  rw [if_neg (not_lt.mpr (Int.natCast_nonneg _))]
  have hb : (0 : ℤ) ≤ (cs.length : ℤ) ∧ (cs.length : ℤ) < ((cs ++ [c]).length : ℤ) := by
    refine ⟨Int.natCast_nonneg _, ?_⟩
    simp only [List.length_append, List.length_singleton]
    omega
  rw [if_pos hb]
  simpa using List.get?_concat_length cs c

/-- C4: for an ensemble with a reference and an active selection of `k < N`
atoms, adding a `k`-atom frame scatters it into a full `N`-atom frame: the
stored stack grows by one full-size frame; reading that frame back unselected
reproduces the reference at every unselected position and the added values at
the selected positions. -/
theorem addCoordset_selection_scatter (s : EnsState) (ref : Coords)
    (sel : List ℕ) (row : Coords) (s' : EnsState)
    (href : s.coords = some ref)
    (hsel : s.indices = some sel)
    (hlen : row.length = sel.length)
    (hk : sel.length < s.n_atoms)
    (hnd : sel.Nodup)
    (hb : ∀ j ∈ sel, j < ref.length)
    (h : addCoordset s (.one row) = .ok s') :
    ∃ new, s'.confs = some (s.confs.getD [] ++ [new]) ∧
      getCoordsets s' (.int ((s.confs.getD []).length : ℤ)) false
        = .ok (some (.one new)) ∧
      (∀ j, j ∉ sel → new.get? j = ref.get? j) ∧
      (∀ t j r, sel.get? t = some j → row.get? t = some r →
        new.get? j = some r) := by
  have hns : numSelected s = sel.length := by simp [numSelected, hsel]
  unfold addCoordset checkShape addCoordsetChecked at h
  dsimp only at h
  rw [if_neg (by rw [hns]; rintro ⟨-, -, h3⟩; exact h3 hlen)] at h
  rw [if_pos (by rw [hns]; exact ⟨hlen, by rw [hsel]; rfl⟩)] at h
  rw [href] at h
  dsimp only at h
  rw [hsel] at h
  dsimp only [Option.getD] at h
  have hconfs : s'.confs = some (s.confs.getD [] ++ [scatterRow ref sel row]) := by
    rcases hcs : s.confs with _ | cur <;> rw [hcs] at h <;>
      simpa [hcs] using (congrArg EnsState.confs (Except.ok.inj h)).symm
  refine ⟨scatterRow ref sel row, hconfs, ?_, ?_, ?_⟩
  · unfold getCoordsets
    rw [hconfs]
    dsimp only
    rw [if_pos (Or.inr rfl), npGetFrame_concat]
  · exact fun j hj => scatterRow_get?_of_not_mem sel ref row j hj
  · exact fun t j r h1 h2 => scatterRow_get?_at sel ref row hnd hb t j r h1 h2

/-- A three-atom ensemble with reference set and atom 1 selected. -/
def ens4 : EnsState :=
  { coords := some [![0, 0, 0], ![1, 1, 1], ![2, 2, 2]], n_atoms := 3,
    n_csets := 0, weights := none, atoms := some 3, indices := some [1],
    confs := none }

/-- Witness for `addCoordset_selection_scatter`: adding a 1-atom frame to a
3-atom ensemble with selection `[1]` stores a full frame that keeps the
reference rows at positions 0 and 2 and the added row at position 1. -/
theorem addCoordset_selection_scatter_witness :
    ∃ s', addCoordset ens4 (.one [![9, 9, 9]]) = .ok s' ∧
      ∃ new, s'.confs = some (ens4.confs.getD [] ++ [new]) ∧
        getCoordsets s' (.int ((ens4.confs.getD []).length : ℤ)) false
          = .ok (some (.one new)) ∧
        (∀ j, j ∉ [1] → new.get? j = [![0, 0, 0], ![1, 1, 1], ![2, 2, 2]].get? j) ∧
        (∀ t j r, [1].get? t = some j → [![9, 9, 9]].get? t = some r →
          new.get? j = some r) := by
  refine ⟨_, rfl, ?_⟩
  exact addCoordset_selection_scatter ens4 _ [1] [![9, 9, 9]] _ rfl rfl rfl
    (by decide) (by decide) (by decide) rfl

/-! ## Deleting coordinate sets -/

/-- `which = ones(length, bool); which[index] = False` (ensemble.py:458-459)
as a keep-mask over the `M` frames; an out-of-range entry makes the numpy
assignment raise `IndexError`.  (Negative indices, which numpy would wrap,
are outside this model.) -/
def maskOf (length : ℕ) (index : List ℕ) : Option (List Bool) :=
  if index.all (fun i => i < length) then
    some (index.foldl (fun m i => m.set i false) (List.replicate length true))
  else none

/-- Boolean-mask filtering `l[which]` along the first axis. -/
def maskFilter (mask : List Bool) (l : List α) : List α :=
  ((l.zip mask).filter (fun p => p.2)).map (fun p => p.1)

/-- `Ensemble.delCoordset` (ensemble.py:450-467).  The scalar case is already
wrapped into a one-element list (ensemble.py:453-456).  If the mask empties
the stack, both `_confs` and `_weights` are cleared; otherwise boolean masking
keeps the unaddressed frames.  The same length-`M` mask is applied to
`_weights` (ensemble.py:465-466): fine for `(M, N, 1)` per-conformation
weights, but for `(N, 1)` per-atom weights numpy raises
`IndexError: boolean index did not match` whenever `M ≠ N` — after `_confs`
has already been reassigned — and for `M = N` it silently filters *atoms*.
`_n_csets` is decremented by `len(index)`. -/
def delCoordset (s : EnsState) (index : List ℕ) : Except PyErr EnsState :=
  match maskOf s.n_csets index with
  | none => .error .indexError
  | some which =>
    if which.all (fun b => !b) then
      .ok { s with confs := none, weights := none,
                   n_csets := s.n_csets - index.length }
    else
      match s.confs with
      | none => .error .typeError
      | some cs =>
        let confs' := maskFilter which cs
        match s.weights with
        | none => .ok { s with confs := some confs',
                               n_csets := s.n_csets - index.length }
        | some (.perConf w) =>
            if w.length = which.length then
              .ok { s with confs := some confs',
                           weights := some (.perConf (maskFilter which w)),
                           n_csets := s.n_csets - index.length }
            else .error .indexError
        | some (.perAtom w) =>
            if w.length = which.length then
              .ok { s with confs := some confs',
                           weights := some (.perAtom (maskFilter which w)),
                           n_csets := s.n_csets - index.length }
            else .error .indexError

/-- A two-conformation, one-atom ensemble carrying `(N, 1)` per-atom
weights (`N = 1 ≠ M = 2`). -/
def ensDel : EnsState :=
  { coords := some [![0, 0, 0]], n_atoms := 1, n_csets := 2,
    weights := some (.perAtom [1]), atoms := none, indices := none,
    confs := some [[![1, 0, 0]], [![2, 0, 0]]] }

/-- C8 (counterexample): deleting the in-range frame 0 from a 2-conformation
ensemble with per-atom `(N, 1)` weights (`N = 1`) does NOT remove the frame:
`self._weights[which]` applies the length-2 boolean mask to the 1-row weight
array and numpy raises `IndexError` (in the source, after `_confs` was
already reassigned, leaving `_n_csets` inconsistent). -/
theorem delCoordset_perAtom_weights_raises :
    delCoordset ensDel [0] = .error .indexError ∧ 0 < ensDel.n_csets := by
  exact ⟨rfl, by decide⟩

lemma maskSet_length (index : List ℕ) :
    ∀ base : List Bool,
      (index.foldl (fun m i => m.set i false) base).length = base.length := by
  induction index with
  | nil => intro base; rfl
  | cons a index ih =>
    intro base
    show (index.foldl _ (base.set a false)).length = _
    rw [ih, List.length_set]

lemma maskSet_get? (index : List ℕ) :
    ∀ (base : List Bool) (j : ℕ), j < base.length →
      (index.foldl (fun m i => m.set i false) base).get? j
        = if j ∈ index then some false else base.get? j := by
  induction index with
  | nil => intro base j _; simp
  | cons a index ih =>
    intro base j hj
    show (index.foldl _ (base.set a false)).get? j = _
    rw [ih (base.set a false) j (by simpa using hj)]
    by_cases hji : j ∈ index
    · rw [if_pos hji, if_pos (List.mem_cons_of_mem a hji)]
    · rw [if_neg hji]
      by_cases hja : j = a
      · subst hja
        rw [if_pos (List.mem_cons_self j index)]
        exact List.get?_set_eq_of_lt false hj
      · rw [if_neg (by simp [hja, hji])]
        exact List.get?_set_ne false base (Ne.symm hja)

lemma maskOf_eq_rangeMap (M : ℕ) (index : List ℕ) (which : List Bool)
    (h : maskOf M index = some which) :
    which = (List.range M).map (fun i => !(decide (i ∈ index))) := by
  unfold maskOf at h
  split at h
  · have hw := (Option.some.inj h).symm
    subst hw
    refine List.ext_get? fun j => ?_
    rw [List.get?_map]
    by_cases hj : j < M
    · rw [maskSet_get? index _ j (by rwa [List.length_replicate]),
        List.get?_range hj]
      by_cases hji : j ∈ index
      · simp [hji]
      · simp [hji, List.get?_eq_getElem?, List.getElem?_replicate, hj]
    · have h1 : (index.foldl (fun m i => m.set i false)
          (List.replicate M true)).get? j = none := by
        rw [List.get?_eq_none]
        rw [maskSet_length, List.length_replicate]
        omega
      have h2 : (List.range M).get? j = none := by
        rw [List.get?_eq_none, List.length_range]
        omega
      rw [h1, h2]
      rfl
  · exact absurd h (by simp)

lemma maskFilter_eq_filterMap {α : Type} :
    ∀ (l : List α) (mask : List Bool),
      maskFilter mask l = (List.range l.length).filterMap
        (fun i => if mask.get? i = some true then l.get? i else none)
  | [], mask => by simp [maskFilter]
  | x :: l, [] => by
      unfold maskFilter
      rw [List.zip_nil_right]
      simp only [List.filter_nil, List.map_nil]
      symm
      exact List.filterMap_eq_nil_iff.mpr (fun a _ => by simp)
  | x :: l, b :: mask => by
      have ih := maskFilter_eq_filterMap l mask
      unfold maskFilter at ih ⊢
      rw [List.zip_cons_cons, List.filter_cons, List.length_cons,
        List.range_succ_eq_map, List.filterMap_cons, List.filterMap_map]
      have hfun : ((fun i => if (b :: mask).get? i = some true
            then (x :: l).get? i else none) ∘ Nat.succ)
          = fun i => if mask.get? i = some true then l.get? i else none := by
        funext i
        simp [Function.comp, List.get?_cons_succ]
      cases b
      · rw [hfun]
        have h0 : (if (false :: mask).get? 0 = some true
            then (x :: l).get? 0 else none) = none := by simp
        rw [h0]
        simpa using ih
      · rw [hfun]
        have h0 : (if (true :: mask).get? 0 = some true
            then (x :: l).get? 0 else none) = some x := by simp
        rw [h0]
        simpa using ih

lemma length_le_of_nodup_bounded {index : List ℕ} {M : ℕ}
    (hnd : index.Nodup) (hin : ∀ i ∈ index, i < M) : index.length ≤ M := by
  have hsub : index.toFinset ⊆ Finset.range M := fun i hi =>
    Finset.mem_range.mpr (hin i (List.mem_toFinset.mp hi))
  have hcard : index.toFinset.card = index.length := by
    rw [List.card_toFinset, hnd.dedup]
  calc index.length = index.toFinset.card := hcard.symm
    _ ≤ (Finset.range M).card := Finset.card_le_card hsub
    _ = M := Finset.card_range M

lemma cover_of_length_eq {index : List ℕ} {M : ℕ}
    (hnd : index.Nodup) (hin : ∀ i ∈ index, i < M)
    (hlen : index.length = M) : ∀ j < M, j ∈ index := by
  intro j hj
  have hsub : index.toFinset ⊆ Finset.range M := fun i hi =>
    Finset.mem_range.mpr (hin i (List.mem_toFinset.mp hi))
  have hcard : index.toFinset.card = index.length := by
    rw [List.card_toFinset, hnd.dedup]
  have heq : index.toFinset = Finset.range M :=
    Finset.eq_of_subset_of_card_le hsub
      (by rw [hcard, hlen, Finset.card_range])
  exact List.mem_toFinset.mp (heq ▸ Finset.mem_range.mpr hj)

lemma not_cover_of_length_lt {index : List ℕ} {M : ℕ}
    (hlen : index.length < M) : ∃ j, j < M ∧ j ∉ index := by
  by_contra hc
  push_neg at hc
  have hsub : Finset.range M ⊆ index.toFinset := fun j hj =>
    List.mem_toFinset.mpr (hc j (Finset.mem_range.mp hj))
  have hcards := Finset.card_le_card hsub
  rw [Finset.card_range, List.card_toFinset] at hcards
  have hd : index.dedup.length ≤ index.length :=
    (List.dedup_sublist index).length_le
  omega

lemma mask_all_false_iff (M : ℕ) (index : List ℕ) :
    ((((List.range M).map (fun i => !(decide (i ∈ index)))).all
      (fun b => !b)) = true) ↔ ∀ j < M, j ∈ index := by
  rw [List.all_eq_true]
  constructor
  · intro h j hj
    have := h _ (List.mem_map_of_mem _ (List.mem_range.mpr hj))
    simpa using this
  · intro h b hb
    obtain ⟨i, hi, rfl⟩ := List.mem_map.mp hb
    simpa using h i (List.mem_range.mp hi)

/-- C8 (amended): for distinct in-range indices, on an ensemble whose weights
are absent or per-conformation, `delCoordset` removes exactly the addressed
frames: the conformation count drops by the number removed; if any frame
remains, the stack holds exactly the unaddressed frames in their original
order; if everything was addressed, both conformations and weights are
cleared.  (With `(N, 1)` per-atom weights and `M ≠ N` the call instead raises
`IndexError`, after the stack was already filtered — see the
counterexample.) -/
theorem delCoordset_removes (s : EnsState) (cs : Confs) (index : List ℕ)
    (s' : EnsState)
    (hcs : s.confs = some cs)
    (hM : s.n_csets = cs.length)
    (hin : ∀ i ∈ index, i < cs.length)
    (hnd : index.Nodup)
    (hw : s.weights = none ∨
      ∃ w, s.weights = some (.perConf w) ∧ w.length = cs.length)
    (h : delCoordset s index = .ok s') :
    s'.n_csets = s.n_csets - index.length ∧
    (index.length < cs.length →
      s'.confs = some ((List.range cs.length).filterMap
        (fun i => if i ∈ index then none else cs.get? i))) ∧
    (index.length = cs.length → s'.confs = none ∧ s'.weights = none) := by
  rw [hM]
  unfold delCoordset at h
  rw [hM] at h
  have hcond : (index.all fun i => decide (i < cs.length)) = true :=
    List.all_eq_true.mpr fun i hi => by simpa using hin i hi
  set W := index.foldl (fun m i => m.set i false)
    (List.replicate cs.length true) with hW
  have hmask : maskOf cs.length index = some W := by
    unfold maskOf
    rw [if_pos hcond]
  rw [hmask] at h
  dsimp only at h
  have hrange : W = (List.range cs.length).map (fun i => !(decide (i ∈ index))) :=
    maskOf_eq_rangeMap cs.length index W hmask
  have hWlen : W.length = cs.length := by
    rw [hW, maskSet_length, List.length_replicate]
  have hfilter : maskFilter W cs = (List.range cs.length).filterMap
      (fun i => if i ∈ index then none else cs.get? i) := by
    rw [maskFilter_eq_filterMap]
    refine List.filterMap_congr fun i hi => ?_
    have hilt : i < cs.length := List.mem_range.mp hi
    have hWi : W.get? i = some (!(decide (i ∈ index))) := by
      rw [hrange, List.get?_map, List.get?_range hilt]
      rfl
    rw [hWi]
    by_cases hmem : i ∈ index
    · rw [if_pos hmem]
      simp [hmem]
    · rw [if_neg hmem]
      simp [hmem]
  have hle := length_le_of_nodup_bounded hnd hin
  rcases lt_or_eq_of_le hle with hlt | heq
  · obtain ⟨j, hj, hjn⟩ := not_cover_of_length_lt hlt
    have hall : ¬ ((W.all fun b => !b) = true) := by
      rw [hrange, mask_all_false_iff]
      intro hcontra
      exact hjn (hcontra j hj)
    rw [if_neg hall, hcs] at h
    dsimp only at h
    rcases hw with hw | ⟨w, hw, hwlen⟩
    · rw [hw] at h
      dsimp only at h
      have hs' := Except.ok.inj h
      subst hs'
      refine ⟨rfl, fun _ => ?_, fun hcontra => absurd hcontra (by omega)⟩
      show some (maskFilter W cs) = _
      rw [hfilter]
    · rw [hw] at h
      dsimp only at h
      rw [if_pos (by rw [hwlen, hWlen])] at h
      have hs' := Except.ok.inj h
      subst hs'
      refine ⟨rfl, fun _ => ?_, fun hcontra => absurd hcontra (by omega)⟩
      show some (maskFilter W cs) = _
      rw [hfilter]
  · have hall : (W.all fun b => !b) = true := by
      rw [hrange, mask_all_false_iff]
      exact cover_of_length_eq hnd hin heq
    rw [if_pos hall] at h
    have hs' := Except.ok.inj h
    subst hs'
    exact ⟨rfl, fun hcontra => absurd hcontra (by omega), fun _ => ⟨rfl, rfl⟩⟩

/-- The 3-conformation stack of the spec's concrete deletion scenario. -/
def ensDel3cs : Confs := [[![1, 0, 0]], [![2, 0, 0]], [![3, 0, 0]]]

/-- A 3-conformation, one-atom ensemble without weights. -/
def ensDel3 : EnsState :=
  { coords := some [![0, 0, 0]], n_atoms := 1, n_csets := 3, weights := none,
    atoms := none, indices := none, confs := some ensDel3cs }

/-- Witness for `delCoordset_removes`: the spec's concrete scenario — deleting
frame 1 of 3 leaves exactly frames 0 and 2 in their original order. -/
theorem delCoordset_removes_witness :
    ∃ s', delCoordset ensDel3 [1] = .ok s' ∧
      (s'.n_csets = ensDel3.n_csets - [1].length ∧
       ([1].length < ensDel3cs.length →
         s'.confs = some ((List.range ensDel3cs.length).filterMap
           (fun i => if i ∈ [1] then none else ensDel3cs.get? i))) ∧
       ([1].length = ensDel3cs.length → s'.confs = none ∧ s'.weights = none)) := by
  refine ⟨_, rfl, ?_⟩
  exact delCoordset_removes ensDel3 ensDel3cs [1] _ rfl rfl (by decide)
    (by decide) (Or.inl rfl) rfl

/-! ## Atom selection -/

/-- The `atoms` argument of `setAtoms`, through the collaborator interface of
spec §6: its atom count; `numDummies()` when that attribute exists (`none`
models an `Atomic` class without it, whose `AttributeError` is caught and
passed, ensemble.py:216-219); its `_getIndices()` array; its parent group's
atom count when `getAtomGroup` exists (`none`: the argument is its own
group, ensemble.py:234-237).  All modelled arguments expose `getACSIndex`,
so the `TypeError` probe (ensemble.py:205-208) passes. -/
structure AtomsArg where
  nAtoms : ℕ
  dummies : Option ℕ
  indices : List ℕ
  parent : Option ℕ

/-- `numpy.unique`: sort ascending and drop duplicates. -/
def npUnique (l : List ℕ) : List ℕ := (l.insertionSort (· ≤ ·)).dedup

/-- ensemble.py:228-242: store a complete set (clearing the selection), or a
strict subset — checking the parent group size when no atoms were stored yet
— whose selection becomes the index array produced by the external
`sliceAtoms` (spec §6 contract: a strictly increasing index array into the
parent). -/
def setAtomsStore (sliceA : AtomsArg → List ℕ) (s : EnsState)
    (arg : AtomsArg) : Except PyErr EnsState :=
  if arg.nAtoms = s.n_atoms then
    .ok { s with atoms := some arg.nAtoms, indices := none }
  else
    match s.atoms with
    | none =>
        let ag := arg.parent.getD arg.nAtoms
        if ag ≠ s.n_atoms then .error .valueError
        else .ok { s with atoms := some ag, indices := some (sliceA arg) }
    | some agN =>
        .ok { s with atoms := some agN, indices := some (sliceA arg) }

/-- `Ensemble.setAtoms` (ensemble.py:191-247).  `None` clears atoms and
selection; an argument larger than `N` is a `ValueError`; an argument
exposing `numDummies` is rejected if it has dummies, and its indices must
equal `numpy.unique` of themselves — i.e. be strictly increasing — else
`ValueError: atoms must be ordered by indices` (a duplicated index makes the
`indices != unique(indices)` comparison a numpy broadcast `ValueError` as
well); on a fresh ensemble the argument's count is adopted as `N` with no
selection. -/
def setAtoms (sliceA : AtomsArg → List ℕ) (s : EnsState)
    (atoms : Option AtomsArg) : Except PyErr EnsState :=
  match atoms with
  | none => .ok { s with atoms := none, indices := none }
  | some arg =>
    if s.n_atoms ≠ 0 then
      if arg.nAtoms > s.n_atoms then .error .valueError
      else
        match arg.dummies with
        | some d =>
            if d ≠ 0 then .error .valueError
            else if arg.indices ≠ npUnique arg.indices then .error .valueError
            else setAtomsStore sliceA s arg
        | none => setAtomsStore sliceA s arg
    else
      .ok { s with n_atoms := arg.nAtoms, atoms := some arg.nAtoms,
                   indices := none }

lemma pairwise_lt_of_eq_npUnique {l : List ℕ} (h : l = npUnique l) :
    l.Pairwise (· < ·) := by
  rw [h]
  have hsorted : (l.insertionSort (· ≤ ·)).Sorted (· ≤ ·) :=
    List.sorted_insertionSort (· ≤ ·) l
  have hsorted' : (npUnique l).Sorted (· ≤ ·) :=
    hsorted.sublist (l.insertionSort (· ≤ ·)).dedup_sublist
  have hnd : (npUnique l).Nodup := List.nodup_dedup _
  exact (hsorted'.and hnd).imp fun hab => lt_of_le_of_ne hab.1 hab.2

lemma setAtomsStore_indices (sliceA : AtomsArg → List ℕ) (s₂ : EnsState)
    (arg₂ : AtomsArg) (s₂' : EnsState)
    (hcontract : (sliceA arg₂).Pairwise (· < ·) ∧
      ∀ j ∈ sliceA arg₂, j < s₂.n_atoms)
    (heq : setAtomsStore sliceA s₂ arg₂ = .ok s₂') :
    s₂'.indices = none ∨ ∃ l, s₂'.indices = some l ∧ l.Pairwise (· < ·) ∧
      ∀ j ∈ l, j < s₂'.n_atoms := by
  unfold setAtomsStore at heq
  split at heq
  · left
    rw [← Except.ok.inj heq]
  · split at heq
    · dsimp only at heq
      split at heq
      · exact absurd heq (by simp)
      · have hs := Except.ok.inj heq
        subst hs
        exact Or.inr ⟨sliceA arg₂, rfl, hcontract.1, hcontract.2⟩
    · have hs := Except.ok.inj heq
      subst hs
      exact Or.inr ⟨sliceA arg₂, rfl, hcontract.1, hcontract.2⟩

/-- C9: (a) with `N` set, a subset argument exposing a dummy count whose index
array is not strictly increasing — reordered or duplicated — is rejected with
the ordering `ValueError` (ensemble.py:224-226); the raise precedes every
assignment, so the call stores no selection; (b) whenever a `setAtoms` call
succeeds under the spec's `sliceAtoms` contract (a strictly increasing index
array into `[0, N)`), the stored selection is `None` or a strictly increasing
index sequence into `[0, N)`. -/
theorem setAtoms_ordering (sliceA : AtomsArg → List ℕ) (s : EnsState)
    (arg : AtomsArg)
    (hN : s.n_atoms ≠ 0)
    (hle : arg.nAtoms ≤ s.n_atoms)
    (hdum : arg.dummies = some 0)
    (hord : ¬ arg.indices.Pairwise (· < ·)) :
    setAtoms sliceA s (some arg) = .error .valueError ∧
    ∀ (s₂ : EnsState) (a₂ : Option AtomsArg) (s₂' : EnsState),
      (∀ b, (sliceA b).Pairwise (· < ·) ∧ ∀ j ∈ sliceA b, j < s₂.n_atoms) →
      setAtoms sliceA s₂ a₂ = .ok s₂' →
      s₂'.indices = none ∨
        ∃ l, s₂'.indices = some l ∧ l.Pairwise (· < ·) ∧
          ∀ j ∈ l, j < s₂'.n_atoms := by
  constructor
  · unfold setAtoms
    dsimp only
    rw [if_pos hN, if_neg (not_lt.mpr hle), hdum]
    dsimp only
    rw [if_neg (by simp),
      if_pos (fun hequ => hord (pairwise_lt_of_eq_npUnique hequ))]
  · intro s₂ a₂ s₂' hcontract heq
    unfold setAtoms at heq
    rcases a₂ with _ | arg₂
    · left
      rw [← Except.ok.inj heq]
    · dsimp only at heq
      split at heq
      · split at heq
        · exact absurd heq (by simp)
        · split at heq
          · split at heq
            · exact absurd heq (by simp)
            · split at heq
              · exact absurd heq (by simp)
              · exact setAtomsStore_indices sliceA s₂ arg₂ s₂'
                  (hcontract arg₂) heq
          · exact setAtomsStore_indices sliceA s₂ arg₂ s₂'
              (hcontract arg₂) heq
      · left
        rw [← Except.ok.inj heq]

/-- A slicing oracle returning the fixed strictly increasing selection
`[0, 2]`. -/
def slice02 : AtomsArg → List ℕ := fun _ => [0, 2]

/-- A three-atom ensemble with reference set and no atoms stored. -/
def ensW9 : EnsState :=
  { coords := some [![0, 0, 0], ![1, 1, 1], ![2, 2, 2]], n_atoms := 3,
    n_csets := 0, weights := none, atoms := none, indices := none,
    confs := none }

/-- Witness for `setAtoms_ordering`: a 2-atom subset with reordered indices
`[1, 0]` is rejected, and under the contract-satisfying oracle `slice02`
every successful call stores `None` or a strictly increasing in-range
selection. -/
theorem setAtoms_ordering_witness :
    (ensW9.n_atoms ≠ 0 ∧ ¬ ([1, 0] : List ℕ).Pairwise (· < ·)) ∧
    (setAtoms slice02 ensW9 (some ⟨2, some 0, [1, 0], none⟩)
        = .error .valueError ∧
      ∀ (s₂ : EnsState) (a₂ : Option AtomsArg) (s₂' : EnsState),
        (∀ b, (slice02 b).Pairwise (· < ·) ∧ ∀ j ∈ slice02 b, j < s₂.n_atoms) →
        setAtoms slice02 s₂ a₂ = .ok s₂' →
        s₂'.indices = none ∨
          ∃ l, s₂'.indices = some l ∧ l.Pairwise (· < ·) ∧
            ∀ j ∈ l, j < s₂'.n_atoms) :=
  ⟨⟨by decide, by decide⟩,
   setAtoms_ordering slice02 ensW9 ⟨2, some 0, [1, 0], none⟩
     (by decide) (by decide) rfl (by decide)⟩

/-! ## RMSD statistics -/

/-- The selection restriction `x[indices]` used by `getRMSDs`
(ensemble.py:662-664: `indices` defaults to `arange(N)`, i.e. no
restriction). -/
def restrictSel (s : EnsState) (c : Coords) : Coords :=
  match s.indices with
  | none => c
  | some idx => selectRows c idx

/-- `weights = self._weights[indices] if self._weights is not None else None`
(ensemble.py:666) for per-atom `(N, 1)` weights. -/
def rmsdW (s : EnsState) : Option (List ℚ) :=
  match s.weights, s.indices with
  | some (.perAtom w), none => some w
  | some (.perAtom w), some idx => some (selectW w idx)
  | _, _ => none

/-- Modelled from the spec: the quantity under the square root of the
external `getRMSD` (prody.measure, not under src/) — the standard (optionally
weighted) mean squared deviation `Σ w_i‖x_i−y_i‖² / Σ w_i`; the RMSD itself
is its square root, which is injective on these nonnegative values, so
symmetry, the zero diagonal, and the pairwise/reference agreement proved
below transfer verbatim to the RMSD matrix. -/
def getRMSDsq (w : Option (List ℚ)) (x y : Coords) : ℚ :=
  match w with
  | none => rmsdSq x y
  | some w =>
      (((x.zip y).zip w).map (fun p => sqDev p.1.1 p.1.2 * p.2)).sum / w.sum

/-- A result of `getRMSDs`: a length-M vector (`pairwise=False`) or an M×M
matrix (`pairwise=True`), holding squared RMSDs (see `getRMSDsq`). -/
inductive RMSDRes where
  | vec (v : List ℚ)
  | mat (m : List (List ℚ))

/-- `self._confs.shape[1]`: the atom count of the stored stack. -/
def confsWidth (cs : Confs) : ℕ := (cs.headD []).length

/-- `Ensemble.getRMSDs` (ensemble.py:649-677): `None` when conformations or
reference are unset; selection-restricted, optionally weighted; pairwise
gives the M×M matrix of conformation-vs-conformation values, otherwise the
length-M reference-vs-conformation vector.  For `(M, N, 1)` per-conformation
weights, `weights = self._weights[indices]` (ensemble.py:666) fancy-indexes
the weights' first — conformation — axis with the ATOM index array
(`self._indices`, defaulting to `arange(self._confs.shape[1])`,
ensemble.py:662-664): numpy raises `IndexError` as soon as an atom index
reaches `M`; otherwise the mis-sliced `(k, N, 1)` rows are handed to the
external `getRMSD`, whose result on that malformed shape lies outside the
spec's weighted-RMSD formula and is modelled by the oracle `bad` (the oracle
receives the mis-sliced rows and the two restricted coordinate sets). -/
def getRMSDs (bad : List (List ℚ) → Coords → Coords → ℚ) (s : EnsState)
    (pairwise : Bool) : Except PyErr (Option RMSDRes) :=
  if s.confs = none ∨ s.coords = none then .ok none
  else
    let cs := s.confs.getD []
    match s.weights with
    | some (.perConf w) =>
        let idx := match s.indices with
          | none => List.range (confsWidth cs)
          | some l => l
        if idx.all (fun i => i < w.length) then
          let wbad := idx.map (fun i => w.getD i [])
          if pairwise then
            .ok (some (.mat (cs.map (fun ci => cs.map (fun cj =>
              bad wbad (restrictSel s ci) (restrictSel s cj))))))
          else
            .ok (some (.vec (cs.map (fun ci =>
              bad wbad (restrictSel s (s.coords.getD []))
                (restrictSel s ci)))))
        else .error .indexError
    | _ =>
      if pairwise then
        .ok (some (.mat (cs.map (fun ci => cs.map (fun cj =>
          getRMSDsq (rmsdW s) (restrictSel s ci) (restrictSel s cj))))))
      else
        .ok (some (.vec (cs.map (fun ci =>
          getRMSDsq (rmsdW s) (restrictSel s (s.coords.getD []))
            (restrictSel s ci)))))

/-- Entry `(i, j)` of a nested-list matrix. -/
def matEntry (m : List (List ℚ)) (i j : ℕ) : Option ℚ :=
  (m.get? i).bind fun row => row.get? j

lemma sqDev_comm (a b : V3) : sqDev a b = sqDev b a :=
  Finset.sum_congr rfl fun k _ => by ring

lemma zip_map_sqDev_symm : ∀ (x y : Coords),
    (x.zip y).map (fun p => sqDev p.1 p.2)
      = (y.zip x).map (fun p => sqDev p.1 p.2)
  | [], y => by simp [List.zip_nil_right]
  | x :: xs, [] => by simp
  | x :: xs, y :: ys => by
      simp only [List.zip_cons_cons, List.map_cons]
      rw [sqDev_comm, zip_map_sqDev_symm xs ys]

lemma zip3_map_sqDev_symm : ∀ (x y : Coords) (w : List ℚ),
    ((x.zip y).zip w).map (fun p => sqDev p.1.1 p.1.2 * p.2)
      = ((y.zip x).zip w).map (fun p => sqDev p.1.1 p.1.2 * p.2)
  | [], y, w => by simp [List.zip_nil_right]
  | x :: xs, [], w => by simp
  | x :: xs, y :: ys, [] => by simp [List.zip_cons_cons, List.zip_nil_right]
  | x :: xs, y :: ys, c :: w => by
      simp only [List.zip_cons_cons, List.map_cons]
      rw [sqDev_comm, zip3_map_sqDev_symm xs ys w]

lemma getRMSDsq_symm (w : Option (List ℚ)) (x y : Coords)
    (hlen : x.length = y.length) : getRMSDsq w x y = getRMSDsq w y x := by
  cases w with
  | none =>
      unfold getRMSDsq rmsdSq
      dsimp only
      rw [zip_map_sqDev_symm, hlen]
  | some w =>
      unfold getRMSDsq
      dsimp only
      rw [zip3_map_sqDev_symm]

lemma getRMSDsq_self (w : Option (List ℚ)) (x : Coords) :
    getRMSDsq w x x = 0 := by
  cases w with
  | none =>
      unfold getRMSDsq rmsdSq
      dsimp only
      have hz : ∀ z : Coords, ((z.zip z).map (fun p => sqDev p.1 p.2)).sum = 0 := by
        intro z
        induction z with
        | nil => simp
        | cons a z ih =>
            rw [List.zip_cons_cons, List.map_cons, List.sum_cons, ih]
            simp [sqDev]
      rw [hz, zero_div]
  | some w =>
      unfold getRMSDsq
      dsimp only
      have hz : ∀ (z : Coords) (w : List ℚ),
          (((z.zip z).zip w).map (fun p => sqDev p.1.1 p.1.2 * p.2)).sum = 0 := by
        intro z
        induction z with
        | nil => intro w; simp
        | cons a z ih =>
            intro w
            cases w with
            | nil => simp [List.zip_cons_cons, List.zip_nil_right]
            | cons c w =>
                rw [List.zip_cons_cons, List.zip_cons_cons, List.map_cons,
                  List.sum_cons, ih w]
                simp [sqDev]
      rw [hz, zero_div]

lemma restrictSel_length_eq (s : EnsState) {c₁ c₂ : Coords}
    (h : c₁.length = c₂.length) :
    (restrictSel s c₁).length = (restrictSel s c₂).length := by
  unfold restrictSel
  cases s.indices with
  | none => exact h
  | some idx => simp [selectRows]

/-- C7 (amended): with reference and M conformations set and weights absent
or per-atom `(N, 1)`, `getRMSDs(pairwise=True)` returns the M×M matrix whose
`(i, j)` entry is the selection-restricted, optionally weighted (squared)
RMSD between conformations `i` and `j`; the matrix is symmetric with a zero
diagonal; and when the reference equals stored conformation `r`,
`getRMSDs(pairwise=False)[i]` equals entry `(i, r)` of the pairwise matrix
for every `i`.  (With `(M, N, 1)` per-conformation weights the claim fails —
see `getRMSDs_perConf_raises`.) -/
theorem getRMSDs_pairwise_props (bad : List (List ℚ) → Coords → Coords → ℚ)
    (s : EnsState) (cs : Confs) (ref : Coords)
    (r : ℕ)
    (hcs : s.confs = some cs)
    (href : s.coords = some ref)
    (hw : ∀ w, s.weights ≠ some (.perConf w))
    (hrect : ∀ c ∈ cs, c.length = ref.length)
    (hr : cs.get? r = some ref) :
    ∃ P v, getRMSDs bad s true = .ok (some (.mat P)) ∧
      getRMSDs bad s false = .ok (some (.vec v)) ∧
      (∀ i j ci cj, cs.get? i = some ci → cs.get? j = some cj →
        matEntry P i j = some (getRMSDsq (rmsdW s)
          (restrictSel s ci) (restrictSel s cj))) ∧
      (∀ i j, matEntry P i j = matEntry P j i) ∧
      (∀ i, i < cs.length → matEntry P i i = some 0) ∧
      (∀ i, v.get? i = matEntry P i r) := by
  have hcond : ¬ (s.confs = none ∨ s.coords = none) := by
    rintro (hh | hh)
    · rw [hh] at hcs; exact absurd hcs (by simp)
    · rw [hh] at href; exact absurd href (by simp)
  refine ⟨cs.map (fun ci => cs.map (fun cj =>
      getRMSDsq (rmsdW s) (restrictSel s ci) (restrictSel s cj))),
    cs.map (fun ci => getRMSDsq (rmsdW s) (restrictSel s ref)
      (restrictSel s ci)), ?_, ?_, ?_, ?_, ?_, ?_⟩
  · unfold getRMSDs
    rw [if_neg hcond]
    rcases hws : s.weights with _ | wv
    · dsimp only
      rw [hcs]
      rfl
    · rcases wv with w | w
      · dsimp only
        rw [hcs]
        rfl
      · exact absurd hws (hw w)
  · unfold getRMSDs
    rw [if_neg hcond]
    rcases hws : s.weights with _ | wv
    · dsimp only
      rw [hcs, href]
      rfl
    · rcases wv with w | w
      · dsimp only
        rw [hcs, href]
        rfl
      · exact absurd hws (hw w)
  · intro i j ci cj hci hcj
    rw [List.get?_eq_getElem?] at hci hcj
    simp [matEntry, List.get?_eq_getElem?, hci, hcj]
  · intro i j
    rcases hci : cs.get? i with _ | ci <;> rcases hcj : cs.get? j with _ | cj
    · rw [List.get?_eq_getElem?] at hci hcj
      simp [matEntry, List.get?_eq_getElem?, hci, hcj]
    · rw [List.get?_eq_getElem?] at hci hcj
      simp [matEntry, List.get?_eq_getElem?, hci, hcj]
    · rw [List.get?_eq_getElem?] at hci hcj
      simp [matEntry, List.get?_eq_getElem?, hci, hcj]
    · have hlen : (restrictSel s ci).length = (restrictSel s cj).length :=
        restrictSel_length_eq s (by
          rw [hrect ci (List.get?_mem hci), hrect cj (List.get?_mem hcj)])
      rw [List.get?_eq_getElem?] at hci hcj
      simp [matEntry, List.get?_eq_getElem?, hci, hcj, getRMSDsq_symm _ _ _ hlen]
  · intro i hi
    have hci := List.get?_eq_get hi
    rw [List.get?_eq_getElem?] at hci
    simp [matEntry, List.get?_eq_getElem?, hci, getRMSDsq_self]
  · intro i
    rcases hci : cs.get? i with _ | ci
    · rw [List.get?_eq_getElem?] at hci
      simp [matEntry, List.get?_eq_getElem?, hci]
    · have hlen : (restrictSel s ref).length = (restrictSel s ci).length :=
        restrictSel_length_eq s (by
          rw [hrect ref (List.get?_mem hr), hrect ci (List.get?_mem hci)])
      have hr2 := hr
      rw [List.get?_eq_getElem?] at hci hr2
      simp [matEntry, List.get?_eq_getElem?, hci, hr2, getRMSDsq_symm _ _ _ hlen]

/-- The 2-conformation stack whose first frame equals the reference. -/
def ens7cs : Confs := [[![0, 0, 0]], [![1, 0, 0]]]

/-- A 2-conformation, one-atom ensemble whose reference equals stored
conformation 0. -/
def ens7 : EnsState :=
  { coords := some [![0, 0, 0]], n_atoms := 1, n_csets := 2, weights := none,
    atoms := none, indices := none, confs := some ens7cs }

/-- A concrete stand-in for the external `getRMSD` on malformed weight
arrays (never consulted off the per-conformation-weights path). -/
def badRMSD0 : List (List ℚ) → Coords → Coords → ℚ := fun _ _ _ => 0

/-- Witness for `getRMSDs_pairwise_props` at a concrete 2-conformation
ensemble with the reference equal to conformation 0. -/
theorem getRMSDs_pairwise_props_witness :
    (ens7.confs = some ens7cs ∧ ens7cs.get? 0 = some [![0, 0, 0]]) ∧
    (∃ P v, getRMSDs badRMSD0 ens7 true = .ok (some (.mat P)) ∧
      getRMSDs badRMSD0 ens7 false = .ok (some (.vec v)) ∧
      (∀ i j ci cj, ens7cs.get? i = some ci → ens7cs.get? j = some cj →
        matEntry P i j = some (getRMSDsq (rmsdW ens7)
          (restrictSel ens7 ci) (restrictSel ens7 cj))) ∧
      (∀ i j, matEntry P i j = matEntry P j i) ∧
      (∀ i, i < ens7cs.length → matEntry P i i = some 0) ∧
      (∀ i, v.get? i = matEntry P i 0)) :=
  ⟨⟨rfl, rfl⟩,
   getRMSDs_pairwise_props badRMSD0 ens7 ens7cs [![0, 0, 0]] 0 rfl rfl
     (fun w h => Option.noConfusion h) (by decide) rfl⟩

/-- A 1-conformation, 2-atom ensemble carrying `(M, N, 1)` per-conformation
weights with `M = 1 < N = 2`. -/
def ensPC : EnsState :=
  { coords := some [![0, 0, 0], ![1, 0, 0]], n_atoms := 2, n_csets := 1,
    weights := some (.perConf [[1, 1]]), atoms := none, indices := none,
    confs := some [[![0, 0, 0], ![1, 0, 0]]] }

/-- C7 (counterexample): on an ensemble with reference and M conformations
set but `(M, N, 1)` per-conformation weights with `M < N`,
`getRMSDs(pairwise=True)` does NOT return an M×M matrix:
`self._weights[indices]` (ensemble.py:666) fancy-indexes the weights' first
(conformation) axis of length `M` with the atom index array `arange(N)`, and
numpy raises `IndexError`. -/
theorem getRMSDs_perConf_raises :
    ensPC.coords = some [![0, 0, 0], ![1, 0, 0]] ∧
    ensPC.confs = some [[![0, 0, 0], ![1, 0, 0]]] ∧
    getRMSDs badRMSD0 ensPC true = .error .indexError :=
  ⟨rfl, rfl, rfl⟩

/-! ## Conformation access -/

/-- `Ensemble.getConformation` (ensemble.py:481-494): `AttributeError` when no
conformations are set; a negative index wraps; out of range raises
`IndexError`.  (The non-`Integral` `TypeError` branch is unrepresentable for
a typed integer index.)  The returned `Conformation` handle is modelled as
the (ensemble, normalised index) pair. -/
def getConformation (s : EnsState) (index : ℤ) : Except PyErr (EnsState × ℕ) :=
  if s.confs = none then .error .attributeError
  else
    let n : ℤ := s.n_csets
    if -n ≤ index ∧ index < n then
      .ok (s, (if index < 0 then index + n else index).toNat)
    else .error .indexError

/-- `Ensemble.setCoords` (ensemble.py:267-292) on a raw array or `None`
(object sources resolve through their accessors first, ensemble.py:272-283):
`ValueError` when no coordinates are obtained; the external `checkCoords`
test (spec-modelled: row count must match a previously fixed `N`); then the
reference is replaced and `N` adopted. -/
def setCoords (s : EnsState) (coords : Option Coords) : Except PyErr EnsState :=
  match coords with
  | none => .error .valueError
  | some c =>
      if s.n_atoms ≠ 0 ∧ c.length ≠ s.n_atoms then .error .valueError
      else .ok { s with coords := some c, n_atoms := c.length }

/-- `Ensemble.setWeights` (ensemble.py:317-328) as exercised by the slicing
paths, where the incoming array is this ensemble's own already-validated
full-size weight array: the spec-modelled `checkWeights` returns it
unchanged; `AttributeError` when the reference is not yet set. -/
def setWeightsOwn (s : EnsState) (w : WeightsV) : Except PyErr EnsState :=
  if s.n_atoms = 0 then .error .attributeError
  else .ok { s with weights := some w }

/-- Generate `i, i+step, ...` while before `stop` (CPython slice iteration);
the fuel bounds the list length. -/
def sliceGen : ℕ → ℤ → ℤ → ℤ → Bool → List ℤ
  | 0, _, _, _, _ => []
  | fuel + 1, i, stop, step, pos =>
      if (if pos then i < stop else stop < i) then
        i :: sliceGen fuel (i + step) stop step pos
      else []

/-- CPython `slice.indices(n)` (used via `index.indices(len(self))` at
ensemble.py:82-83) followed by materialising the index sequence, as numpy
basic slicing does; a zero step raises `ValueError`. -/
def pySliceIdx (n : ℕ) (start stop step : Option ℤ) : Except PyErr (List ℕ) :=
  let step := step.getD 1
  if step = 0 then .error .valueError
  else
    let pos := decide (0 < step)
    let lower : ℤ := if pos then 0 else -1
    let upper : ℤ := if pos then n else (n : ℤ) - 1
    let norm : Option ℤ → ℤ → ℤ := fun v dflt =>
      match v with
      | none => dflt
      | some x =>
          let x := if x < 0 then x + n else x
          if x < lower then lower else if x > upper then upper else x
    let first := norm start (if pos then lower else upper)
    let last := norm stop (if pos then upper else lower)
    .ok ((sliceGen (n + 1) first last step pos).map Int.toNat)

/-- numpy fancy indexing `confs[index]` with an integer list: every entry in
range (negative wraps), else `IndexError`. -/
def npTakeFrames (cs : Confs) (l : List ℤ) : Option Confs :=
  l.mapM (fun i => npGetFrame cs i)

/-- The index argument of `Ensemble.__getitem__`: an integer, a slice, a
list, or anything else (ensemble.py:78-105). -/
inductive GetIndex where
  | int (i : ℤ)
  | slice (start stop step : Option ℤ)
  | list (l : List ℤ)
  | other

/-- The result of `Ensemble.__getitem__`: Python `None`, a `Conformation`
handle, or a new sub-`Ensemble`. -/
inductive GetItemRes where
  | none
  | conf (c : EnsState × ℕ)
  | sub (e : EnsState)

/-- The sub-ensemble construction shared by the slice and list branches of
`Ensemble.__getitem__` (ensemble.py:81-102): a fresh ensemble; `setCoords` on
a copy of the reference (`ValueError` when it is `None`); `addCoordset` of
the selected frames; `setWeights` of a copy of the weights when present;
`setAtoms` of the stored atom group (which has no `numDummies`, and is a
complete set for this ensemble); finally the direct assignment
`ens._indices = self._indices`. -/
def buildSub (sliceA : AtomsArg → List ℕ) (s : EnsState) (frames : Confs) :
    Except PyErr EnsState :=
  match setCoords emptyEns s.coords with
  | .error e => .error e
  | .ok e1 =>
    match addCoordset e1 (.many frames) with
    | .error e => .error e
    | .ok e2 =>
      match (match s.weights with
             | none => (.ok e2 : Except PyErr EnsState)
             | some w => setWeightsOwn e2 w) with
      | .error e => .error e
      | .ok e3 =>
        match setAtoms sliceA e3
            (s.atoms.map (fun n => ⟨n, none, [], none⟩)) with
        | .error e => .error e
        | .ok e4 => .ok { e4 with indices := s.indices }

/-- `Ensemble.__getitem__` (ensemble.py:65-105).  When `self._confs is None`
the method returns `None` immediately (ensemble.py:68-69), before any index
is inspected — even an out-of-range, malformed, or garbage one. -/
def getItem (sliceA : AtomsArg → List ℕ) (s : EnsState) (index : GetIndex) :
    Except PyErr GetItemRes :=
  if s.confs = none then .ok .none
  else
    match index with
    | .int i =>
        match getConformation s i with
        | .error e => .error e
        | .ok c => .ok (.conf c)
    | .slice a b c =>
        match pySliceIdx s.n_csets a b c with
        | .error e => .error e
        | .ok idxs =>
            match buildSub sliceA s
                (idxs.map (fun k => (s.confs.getD []).getD k [])) with
            | .error e => .error e
            | .ok e => .ok (.sub e)
    | .list l =>
        match npTakeFrames (s.confs.getD []) l with
        | none => .error .indexError
        | some frames =>
            match buildSub sliceA s frames with
            | .error e => .error e
            | .ok e => .ok (.sub e)
    | .other => .error .indexError

/-- C10: on an ensemble with no conformations, `ens[index]` returns `None`
for every index — integer (even out of range), slice, list or garbage —
while `getConformation` raises `AttributeError` on every index: the two
conformation-access paths disagree on the empty-stack edge case. -/
theorem getitem_empty_vs_getConformation (sliceA : AtomsArg → List ℕ)
    (s : EnsState) (hc : s.confs = none) :
    (∀ index : GetIndex, getItem sliceA s index = .ok .none) ∧
    (∀ i : ℤ, getConformation s i = .error .attributeError) := by
  constructor
  · intro index
    unfold getItem
    rw [if_pos hc]
  · intro i
    unfold getConformation
    rw [if_pos hc]

/-- A slicing oracle for the witnesses (never consulted on these inputs). -/
def sliceNil : AtomsArg → List ℕ := fun _ => []

/-- Witness for `getitem_empty_vs_getConformation` on the fresh ensemble,
with an out-of-range integer, a slice, and a garbage index. -/
theorem getitem_empty_witness :
    emptyEns.confs = none ∧
    getItem sliceNil emptyEns (.int 99) = .ok .none ∧
    getItem sliceNil emptyEns (.slice none none (some 0)) = .ok .none ∧
    getItem sliceNil emptyEns .other = .ok .none ∧
    getConformation emptyEns 99 = .error .attributeError := by
  have h := getitem_empty_vs_getConformation sliceNil emptyEns rfl
  exact ⟨rfl, h.1 _, h.1 _, h.1 _, h.2 99⟩
